import Mathlib

/-!
Verification of the spi-echo firmware pair (controller bridge firmware and
peripheral echo firmware).  The development shallowly embeds:

* the `heapless::spsc::Queue<u16, 16>` circular queue used for `TX_BUFFER`,
  `RX_BUFFER` (controller) and `BUFFER` (peripheral/echo);
* the three interrupt handlers (`USART2` and `SPI1` of the controller,
  `SPI1` of the echo firmware) as state-transition functions that also
  return the ordered trace of register writes they perform;
* the global-initialisation order of both `main` bring-up routines.

Machine registers appear as explicit state fields (interrupt-enable bits)
or as trace events (data-register writes, flag clears); the hardware status
flags read by a handler are that invocation's inputs.
-/

/-- Shallow embedding of `heapless::spsc::Queue<u16, 16>`.  `buffer` is the
backing array of 16 slots (a total function; slots never written hold junk
that the operations below never read), `head` and `tail` are the wrapping
indices.  In every reachable state both indices are below 16. -/
structure Queue where
  buffer : Nat → Nat
  head : Nat
  tail : Nat

/-- heapless `Queue::increment`: advance an index modulo the slot count `N = 16`. -/
def Queue.increment (v : Nat) : Nat := (v + 1) % 16

/-- heapless `Queue::len`: `tail.wrapping_sub(head).wrapping_add(N) % N`; for
indices below 16 (all reachable states) this is `(tail + 16 - head) % 16`. -/
def Queue.len (q : Queue) : Nat := (q.tail + 16 - q.head) % 16

/-- heapless `Queue::capacity` is `N - 1 = 15`: one slot stays free to
distinguish a full queue from an empty one. -/
def Queue.capacity : Nat := 15

/-- heapless `Queue::is_empty` (`len() == 0`). -/
def Queue.is_empty (q : Queue) : Bool := decide (q.len = 0)

/-- heapless `Queue::is_full` (`len() == capacity()`). -/
def Queue.is_full (q : Queue) : Bool := decide (q.len = Queue.capacity)

/-- heapless `Queue::enqueue` (`inner_enqueue`): reject when the incremented
tail would collide with `head`, otherwise store at `tail` and advance it.
The returned `Bool` is `Result::is_ok()` as the handlers test it. -/
def Queue.enqueue (q : Queue) (v : Nat) : Queue × Bool :=
  if Queue.increment q.tail = q.head then (q, false)
  else ({ buffer := fun i => if i = q.tail then v else q.buffer i,
          head := q.head, tail := Queue.increment q.tail }, true)

/-- heapless `Queue::dequeue` (`inner_dequeue`): `None` when `head == tail`,
otherwise read the slot at `head` and advance it. -/
def Queue.dequeue (q : Queue) : Queue × Option Nat :=
  if q.head = q.tail then (q, none)
  else ({ q with head := Queue.increment q.head }, some (q.buffer q.head))

/-- Both indices in range; true of `Queue::new()` and preserved by the
operations. -/
def Queue.wf (q : Queue) : Prop := q.head < 16 ∧ q.tail < 16

/-- Logical FIFO content of the queue, oldest item first. -/
def Queue.toList (q : Queue) : List Nat :=
  (List.range q.len).map (fun i => q.buffer ((q.head + i) % 16))

/-- `Queue::default()` / `Queue::new()`: both indices zero. -/
def emptyQueue : Queue := { buffer := fun _ => 0, head := 0, tail := 0 }

theorem Queue.len_lt (q : Queue) : q.len < 16 :=
  Nat.mod_lt _ (by omega)

theorem Queue.toList_emptyQueue : emptyQueue.toList = [] := rfl

theorem Queue.wf_emptyQueue : emptyQueue.wf := ⟨by decide, by decide⟩

theorem Queue.enqueue_fail {q : Queue} {v : Nat}
    (h : Queue.increment q.tail = q.head) : q.enqueue v = (q, false) := by
  unfold Queue.enqueue
  rw [if_pos h]

theorem Queue.dequeue_empty {q : Queue} (h : q.head = q.tail) :
    q.dequeue = (q, none) := by
  unfold Queue.dequeue
  rw [if_pos h]

theorem Queue.is_empty_true_iff {q : Queue} (hwf : q.wf) :
    q.is_empty = true ↔ q.head = q.tail := by
  obtain ⟨hh, ht⟩ := hwf
  unfold Queue.is_empty Queue.len
  simp only [decide_eq_true_eq]
  omega

theorem Queue.is_empty_false_iff {q : Queue} (hwf : q.wf) :
    q.is_empty = false ↔ q.head ≠ q.tail := by
  rw [← Bool.not_eq_true, not_iff_not]
  exact Queue.is_empty_true_iff hwf

theorem Queue.is_full_imp {q : Queue} (hwf : q.wf) (h : q.is_full = true) :
    Queue.increment q.tail = q.head := by
  obtain ⟨hh, ht⟩ := hwf
  unfold Queue.is_full Queue.len Queue.capacity at h
  simp only [decide_eq_true_eq] at h
  unfold Queue.increment
  omega

theorem Queue.full_not_empty {q : Queue} (hwf : q.wf)
    (h : Queue.increment q.tail = q.head) : q.is_empty = false := by
  obtain ⟨hh, ht⟩ := hwf
  unfold Queue.increment at h
  unfold Queue.is_empty Queue.len
  simp only [decide_eq_false_iff_not]
  omega

theorem Queue.enqueue_ok_fields {q : Queue} {v : Nat}
    (hne : Queue.increment q.tail ≠ q.head) :
    (q.enqueue v).2 = true ∧
    (q.enqueue v).1.head = q.head ∧
    (q.enqueue v).1.tail = Queue.increment q.tail ∧
    (q.enqueue v).1.buffer = fun i => if i = q.tail then v else q.buffer i := by
  unfold Queue.enqueue
  rw [if_neg hne]
  exact ⟨rfl, rfl, rfl, rfl⟩

/-- A successful enqueue appends the item to the logical content, keeps the
indices in range, and leaves the queue non-empty. -/
theorem Queue.enqueue_ok {q : Queue} {v : Nat} (hwf : q.wf)
    (hne : Queue.increment q.tail ≠ q.head) :
    (q.enqueue v).2 = true ∧
    (q.enqueue v).1.toList = q.toList ++ [v] ∧
    (q.enqueue v).1.wf ∧
    (q.enqueue v).1.is_empty = false := by
  obtain ⟨hh, ht⟩ := hwf
  have hinc : Queue.increment q.tail < 16 := Nat.mod_lt _ (by omega)
  obtain ⟨hok, hhd, htl, hbuf⟩ := Queue.enqueue_ok_fields (q := q) (v := v) hne
  have hne' : (q.tail + 1) % 16 ≠ q.head := hne
  have hlen : (q.enqueue v).1.len = q.len + 1 := by
    unfold Queue.len
    rw [hhd, htl]
    unfold Queue.increment
    omega
  refine ⟨hok, ?_, ?_, ?_⟩
  · unfold Queue.toList
    rw [hlen, hhd, hbuf]
    simp only [List.range_succ, List.map_append, List.map_cons, List.map_nil]
    congr 1
    · apply List.map_congr_left
      intro i hi
      rw [List.mem_range] at hi
      have hlq : q.len = (q.tail + 16 - q.head) % 16 := rfl
      have hidx : (q.head + i) % 16 ≠ q.tail := by omega
      simp only [hidx, if_false]
    · have hlq : q.len = (q.tail + 16 - q.head) % 16 := rfl
      have hidx : (q.head + q.len) % 16 = q.tail := by omega
      simp only [hidx, if_true]
  · exact ⟨by rw [hhd]; exact hh, by rw [htl]; exact hinc⟩
  · unfold Queue.is_empty
    rw [hlen]
    simp

theorem Queue.dequeue_ne_fields {q : Queue} (hne : q.head ≠ q.tail) :
    q.dequeue.2 = some (q.buffer q.head) ∧
    q.dequeue.1.head = Queue.increment q.head ∧
    q.dequeue.1.tail = q.tail ∧
    q.dequeue.1.buffer = q.buffer := by
  unfold Queue.dequeue
  rw [if_neg hne]
  exact ⟨rfl, rfl, rfl, rfl⟩

/-- A dequeue from a non-empty queue returns the oldest item, removes it from
the logical content and keeps the indices in range. -/
theorem Queue.dequeue_ok {q : Queue} (hwf : q.wf) (hne : q.head ≠ q.tail) :
    q.dequeue.2 = some (q.buffer q.head) ∧
    q.toList = q.buffer q.head :: q.dequeue.1.toList ∧
    q.dequeue.1.wf := by
  obtain ⟨hh, ht⟩ := hwf
  have hinc : Queue.increment q.head < 16 := Nat.mod_lt _ (by omega)
  obtain ⟨hv, hhd, htl, hbuf⟩ := Queue.dequeue_ne_fields hne
  have hlen : q.len = q.dequeue.1.len + 1 := by
    unfold Queue.len
    rw [hhd, htl]
    unfold Queue.increment
    omega
  refine ⟨hv, ?_, ⟨by rw [hhd]; exact hinc, by rw [htl]; exact ht⟩⟩
  unfold Queue.toList
  rw [hlen, hhd, hbuf, List.range_succ_eq_map]
  simp only [List.map_cons, List.map_map]
  congr 1
  · have h0 : (q.head + 0) % 16 = q.head := by omega
    rw [h0]
  · apply List.map_congr_left
    intro i hi
    rw [List.mem_range] at hi
    simp only [Function.comp_apply]
    have hidx : (q.head + Nat.succ i) % 16 = (Queue.increment q.head + i) % 16 := by
      unfold Queue.increment
      omega
    rw [hidx]

/-- One enqueue or dequeue request, as issued by the interrupt handlers. -/
inductive Op where
  | enq (v : Nat)
  | deq
deriving DecidableEq

/-- Run a sequence of queue operations; returns the final queue, the list of
items whose enqueue was accepted (in order), and the list of items returned
by dequeues (in order). -/
def runOps : List Op → Queue → Queue × List Nat × List Nat
  | [], q => (q, [], [])
  | Op.enq v :: ops, q =>
    ((runOps ops (q.enqueue v).1).1,
     if (q.enqueue v).2 then v :: (runOps ops (q.enqueue v).1).2.1
     else (runOps ops (q.enqueue v).1).2.1,
     (runOps ops (q.enqueue v).1).2.2)
  | Op.deq :: ops, q =>
    ((runOps ops q.dequeue.1).1,
     (runOps ops q.dequeue.1).2.1,
     match q.dequeue.2 with
     | some u => u :: (runOps ops q.dequeue.1).2.2
     | none => (runOps ops q.dequeue.1).2.2)

/-- FIFO invariant of `runOps`: the dequeued items followed by the remaining
content equal the initial content followed by the accepted items. -/
theorem runOps_fifo (ops : List Op) :
    ∀ q : Queue, q.wf →
      (runOps ops q).1.wf ∧
      (runOps ops q).2.2 ++ (runOps ops q).1.toList = q.toList ++ (runOps ops q).2.1 := by
  induction ops with
  | nil =>
    intro q hwf
    exact ⟨hwf, by simp [runOps]⟩
  | cons op ops ih =>
    intro q hwf
    cases op with
    | enq v =>
      by_cases hfull : Queue.increment q.tail = q.head
      · have henq : q.enqueue v = (q, false) := Queue.enqueue_fail hfull
        obtain ⟨hwf', hfifo⟩ := ih q hwf
        simp only [runOps, henq]
        exact ⟨hwf', hfifo⟩
      · obtain ⟨hok, hlist, hwf1, _⟩ := Queue.enqueue_ok (v := v) hwf hfull
        obtain ⟨hwf', hfifo⟩ := ih (q.enqueue v).1 hwf1
        simp only [runOps, hok, if_true]
        refine ⟨hwf', ?_⟩
        rw [hfifo, hlist]
        simp
    | deq =>
      by_cases hemp : q.head = q.tail
      · have hdq : q.dequeue = (q, none) := Queue.dequeue_empty hemp
        obtain ⟨hwf', hfifo⟩ := ih q hwf
        simp only [runOps, hdq]
        exact ⟨hwf', hfifo⟩
      · obtain ⟨hv, hlist, hwf1⟩ := Queue.dequeue_ok hwf hemp
        obtain ⟨hwf', hfifo⟩ := ih q.dequeue.1 hwf1
        simp only [runOps, hv]
        refine ⟨hwf', ?_⟩
        rw [List.cons_append, hfifo, hlist]
        simp

/-- Claim C2: for every sequence of enqueue/dequeue operations on the
capacity-16-declared circular queue, starting empty, the number of queued
items never exceeds 16, and the items returned by dequeue followed by the
items still queued equal exactly the accepted enqueued items in order
(strict FIFO: the dequeue sequence is a prefix of the accepted sequence). -/
theorem queue_fifo_and_bound (ops : List Op) :
    (runOps ops emptyQueue).1.len ≤ 16 ∧
    (runOps ops emptyQueue).2.2 ++ (runOps ops emptyQueue).1.toList =
      (runOps ops emptyQueue).2.1 := by
  obtain ⟨_, hfifo⟩ := runOps_fifo ops emptyQueue Queue.wf_emptyQueue
  refine ⟨Nat.le_of_lt (Queue.len_lt _), ?_⟩
  rw [hfifo, Queue.toList_emptyQueue]
  simp

/-- Claim C3: enqueue on a full queue leaves the queue (contents and
head/tail bookkeeping) unchanged and reports the item dropped (`false`);
dequeue on an empty queue leaves the queue unchanged and reports `none`.
Both are total functions: no blocking, no error. -/
theorem queue_full_drop_empty_none (q : Queue) (v : Nat) :
    (q.wf → q.is_full = true → q.enqueue v = (q, false)) ∧
    (q.wf → q.is_empty = true → q.dequeue = (q, none)) := by
  constructor
  · intro hwf hfull
    exact Queue.enqueue_fail (Queue.is_full_imp hwf hfull)
  · intro hwf hemp
    exact Queue.dequeue_empty ((Queue.is_empty_true_iff hwf).1 hemp)

/-- A concrete full queue: 15 items queued (indices 0 to 14 written). -/
def fullQueue : Queue := { buffer := fun _ => 0, head := 0, tail := 15 }

/-- Witness for C3 at concrete queues: the full queue rejects an enqueue of
7 unchanged, and the empty queue answers a dequeue with `none` unchanged. -/
theorem queue_full_drop_empty_none_witness :
    fullQueue.enqueue 7 = (fullQueue, false) ∧ emptyQueue.dequeue = (emptyQueue, none) :=
  ⟨(queue_full_drop_empty_none fullQueue 7).1 (by constructor <;> decide) (by decide),
   (queue_full_drop_empty_none emptyQueue 7).2 Queue.wf_emptyQueue (by decide)⟩

/-- Twenty consecutive enqueues of the units 0 to 19, no dequeues. -/
def enq20 : List Op := (List.range 20).map Op.enq

/-- Counterexample to claim C4: enqueueing 20 units into the queue declared
with 16 slots does not accept 16 of them and does not leave 16 queued. -/
theorem enqueue20_not_sixteen :
    ¬ ((runOps enq20 emptyQueue).2.1.length = 16 ∧
       (runOps enq20 emptyQueue).1.len = 16) := by
  decide

/-- Claim C4 as amended: a `heapless::spsc::Queue` declared with `N = 16`
slots holds at most `N - 1 = 15` items, so of 20 units enqueued with no
intervening dequeue exactly the first 15 are accepted, the last 5 are
reported dropped, and the queue length is 15 afterwards. -/
theorem enqueue20_fifteen :
    (runOps enq20 emptyQueue).2.1 = List.range 15 ∧
    (runOps enq20 emptyQueue).2.1.length = 15 ∧
    (runOps enq20 emptyQueue).1.len = 15 ∧
    (runOps enq20 emptyQueue).2.2 = [] := by
  decide

theorem Queue.dequeue_empty_fields {q : Queue} (h : q.head = q.tail) :
    q.dequeue.1 = q ∧ q.dequeue.2 = none := by
  rw [Queue.dequeue_empty h]
  exact ⟨rfl, rfl⟩

theorem Queue.enqueue_fail_fields {q : Queue} {v : Nat}
    (h : Queue.increment q.tail = q.head) :
    (q.enqueue v).1 = q ∧ (q.enqueue v).2 = false := by
  rw [Queue.enqueue_fail h]
  exact ⟨rfl, rfl⟩

/-- Register writes performed by the controller firmware's handlers, in
program order: data-register writes, interrupt-enable bit changes, the
overrun flag clear, the SPI enable bit, and the busy-flag spin-wait of the
master-mode transmit path. -/
inductive Ev where
  | usart2_tdr (v : Nat)
  | usart2_txeie (b : Bool)
  | usart2_orecf
  | spi1_dr (v : Nat)
  | spi1_txeie (b : Bool)
  | spi1_spe (b : Bool)
  | spi1_wait_bsy
deriving DecidableEq

/-- Software-visible state of the controller firmware: the two queues and
the three control bits the handlers modify (`USART2_CR1.TXEIE`,
`SPI1_CR2.TXEIE`, `SPI1_CR1.SPE`). -/
structure ControllerState where
  tx_buffer : Queue
  rx_buffer : Queue
  usart2_txeie : Bool
  spi1_txeie : Bool
  spi1_spe : Bool

/-- Hardware status read by one `USART2` handler invocation: the `ISR` flags
`TXE`, `RXNE`, `ORE` and the value the `RDR` read returns. -/
structure Usart2Input where
  txe : Bool
  rxne : Bool
  ore : Bool
  rdr : Nat

/-- Hardware status read by one `SPI1` handler invocation of the controller:
the `SR` flags `TXE`, `RXNE` and the value the `DR` read returns. -/
structure Spi1Input where
  txe : Bool
  rxne : Bool
  dr : Nat

/-- `USART2` handler, transmit path (main.rs lines 27-37): when `TXE` is
set, dequeue from `RX_BUFFER`; on success write the unit to `TDR` and clear
`TXEIE` if the queue is now empty; on failure clear `TXEIE`. -/
def usart2TxStep (txe : Bool) (s : ControllerState) : ControllerState × List Ev :=
  if txe then
    match s.rx_buffer.dequeue.2 with
    | some byte =>
      if s.rx_buffer.dequeue.1.is_empty then
        ({ s with rx_buffer := s.rx_buffer.dequeue.1, usart2_txeie := false },
         [Ev.usart2_tdr byte, Ev.usart2_txeie false])
      else
        ({ s with rx_buffer := s.rx_buffer.dequeue.1 }, [Ev.usart2_tdr byte])
    | none =>
      ({ s with rx_buffer := s.rx_buffer.dequeue.1, usart2_txeie := false },
       [Ev.usart2_txeie false])
  else (s, [])

/-- `USART2` handler, receive path (main.rs lines 40-50): when `RXNE` is
set, read `RDR` and enqueue onto `TX_BUFFER`; on success set `SPI1`'s
`TXEIE` and enable `SPI1` (`SPE`); on failure (queue full) do nothing. -/
def usart2RxStep (rxne : Bool) (rdr : Nat) (s : ControllerState) : ControllerState × List Ev :=
  if rxne then
    if (s.tx_buffer.enqueue rdr).2 then
      ({ s with tx_buffer := (s.tx_buffer.enqueue rdr).1,
                spi1_txeie := true, spi1_spe := true },
       [Ev.spi1_txeie true, Ev.spi1_spe true])
    else
      ({ s with tx_buffer := (s.tx_buffer.enqueue rdr).1 }, [])
  else (s, [])

/-- `USART2` handler, error path (main.rs lines 51-53): when `ORE` is set,
acknowledge by writing `ICR.ORECF`. -/
def usart2OreStep (ore : Bool) (s : ControllerState) : ControllerState × List Ev :=
  if ore then (s, [Ev.usart2_orecf]) else (s, [])

/-- The `USART2` interrupt handler of the controller: transmit path, then
receive path, then overrun path, with the concatenated write trace. -/
def usart2Handler (i : Usart2Input) (s : ControllerState) : ControllerState × List Ev :=
  ((usart2OreStep i.ore (usart2RxStep i.rxne i.rdr (usart2TxStep i.txe s).1).1).1,
   (usart2TxStep i.txe s).2 ++
   (usart2RxStep i.rxne i.rdr (usart2TxStep i.txe s).1).2 ++
   (usart2OreStep i.ore (usart2RxStep i.rxne i.rdr (usart2TxStep i.txe s).1).1).2)

/-- `SPI1` handler of the controller, transmit path (main.rs lines 64-79):
when `TXE` is set, dequeue from `TX_BUFFER`; on success write the unit to
`DR`, spin-wait while `SR.BSY` is set, disable the peripheral (`SPE`), and
clear `TXEIE` if the queue is now empty; on failure disable the peripheral
and clear `TXEIE`. -/
def spi1TxStep (txe : Bool) (s : ControllerState) : ControllerState × List Ev :=
  if txe then
    match s.tx_buffer.dequeue.2 with
    | some byte =>
      if s.tx_buffer.dequeue.1.is_empty then
        ({ s with tx_buffer := s.tx_buffer.dequeue.1, spi1_spe := false, spi1_txeie := false },
         [Ev.spi1_dr byte, Ev.spi1_wait_bsy, Ev.spi1_spe false, Ev.spi1_txeie false])
      else
        ({ s with tx_buffer := s.tx_buffer.dequeue.1, spi1_spe := false },
         [Ev.spi1_dr byte, Ev.spi1_wait_bsy, Ev.spi1_spe false])
    | none =>
      ({ s with tx_buffer := s.tx_buffer.dequeue.1, spi1_spe := false, spi1_txeie := false },
       [Ev.spi1_spe false, Ev.spi1_txeie false])
  else (s, [])

/-- `SPI1` handler of the controller, receive path (main.rs lines 82-87):
when `RXNE` is set, read `DR` and enqueue onto `RX_BUFFER`; on success
enable `USART2`'s `TXEIE`. -/
def spi1RxStep (rxne : Bool) (dr : Nat) (s : ControllerState) : ControllerState × List Ev :=
  if rxne then
    if (s.rx_buffer.enqueue dr).2 then
      ({ s with rx_buffer := (s.rx_buffer.enqueue dr).1, usart2_txeie := true },
       [Ev.usart2_txeie true])
    else
      ({ s with rx_buffer := (s.rx_buffer.enqueue dr).1 }, [])
  else (s, [])

/-- The `SPI1` interrupt handler of the controller: transmit path then
receive path, with the concatenated write trace. -/
def spi1Handler (i : Spi1Input) (s : ControllerState) : ControllerState × List Ev :=
  ((spi1RxStep i.rxne i.dr (spi1TxStep i.txe s).1).1,
   (spi1TxStep i.txe s).2 ++ (spi1RxStep i.rxne i.dr (spi1TxStep i.txe s).1).2)

/-- Controller state right after bring-up (main.rs lines 147-185): both
queues freshly constructed and empty; `USART2_CR1` was written with only
`RE`, `TE`, `UE`, `RXNEIE` so `TXEIE` is clear; `SPI1_CR2` was written with
only `FRXTH`, `DS`, `SSOE`, `RXNEIE` so `TXEIE` is clear; `SPI1_CR1` was
written with only `BR`, `MSTR` so `SPE` is clear. -/
def controllerInit : ControllerState :=
  { tx_buffer := emptyQueue, rx_buffer := emptyQueue,
    usart2_txeie := false, spi1_txeie := false, spi1_spe := false }

/-- Register writes performed by the echo firmware's handler: `TXDR8` data
writes, `IER.TXPIE` changes, and the `IFCR.UDRC` underrun flag clear. -/
inductive EEv where
  | txdr (v : Nat)
  | txpie (b : Bool)
  | udrc
deriving DecidableEq

/-- Software-visible state of the echo firmware: the single queue, the
`SPI_IER` interrupt-enable bits, the `SPI_CR1.SPE` enable bit and the
underrun data register `SPI_UDRDR`. -/
structure EchoState where
  buffer : Queue
  txpie : Bool
  rxpie : Bool
  spe : Bool
  udrdr : Nat

/-- Hardware status read by one echo `SPI1` handler invocation: the
`SPI_SR` flags `RXP`, `TXP`, `UDR` and the raw value the `RXDR` read
returns (truncated to 16 bits by the handler's `as u16`). -/
structure EchoInput where
  rxp : Bool
  txp : Bool
  udr : Bool
  rxdr : Nat

/-- Echo handler, receive path (main.rs lines 19-25): when `RXP` is set,
read `RXDR` as `u16` and enqueue; on success set `TXPIE`. -/
def echoRxStep (rxp : Bool) (rxdr : Nat) (s : EchoState) : EchoState × List EEv :=
  if rxp then
    if (s.buffer.enqueue (rxdr % 65536)).2 then
      ({ s with buffer := (s.buffer.enqueue (rxdr % 65536)).1, txpie := true },
       [EEv.txpie true])
    else
      ({ s with buffer := (s.buffer.enqueue (rxdr % 65536)).1 }, [])
  else (s, [])

/-- Echo handler, transmit path (main.rs lines 29-41): when `TXP` is set,
dequeue; on success write the unit's low 8 bits (`byte as u8`) to `TXDR8`
and clear `TXPIE` if the queue is now empty; on failure clear `TXPIE`. -/
def echoTxStep (txp : Bool) (s : EchoState) : EchoState × List EEv :=
  if txp then
    match s.buffer.dequeue.2 with
    | some byte =>
      if s.buffer.dequeue.1.is_empty then
        ({ s with buffer := s.buffer.dequeue.1, txpie := false },
         [EEv.txdr (byte % 256), EEv.txpie false])
      else
        ({ s with buffer := s.buffer.dequeue.1 }, [EEv.txdr (byte % 256)])
    | none =>
      ({ s with buffer := s.buffer.dequeue.1, txpie := false }, [EEv.txpie false])
  else (s, [])

/-- Echo handler, underrun path (main.rs lines 44-46): when `UDR` is set,
acknowledge by writing `IFCR.UDRC`. -/
def echoUdrStep (udr : Bool) (s : EchoState) : EchoState × List EEv :=
  if udr then (s, [EEv.udrc]) else (s, [])

/-- The echo firmware's `SPI1` interrupt handler: receive path, transmit
path, then underrun path, with the concatenated write trace. -/
def echoHandler (i : EchoInput) (s : EchoState) : EchoState × List EEv :=
  ((echoUdrStep i.udr (echoTxStep i.txp (echoRxStep i.rxp i.rxdr s).1).1).1,
   (echoRxStep i.rxp i.rxdr s).2 ++
   (echoTxStep i.txp (echoRxStep i.rxp i.rxdr s).1).2 ++
   (echoUdrStep i.udr (echoTxStep i.txp (echoRxStep i.rxp i.rxdr s).1).1).2)

/-- Echo state right after bring-up (main.rs lines 92-109): the queue is
freshly constructed and empty; `SPI_IER` was written with only `RXPIE` so
`TXPIE` is clear; `SPI_CR1.SPE` was set; `SPI_UDRDR` was set to the
placeholder unit b'?' = 63. -/
def echoInit : EchoState :=
  { buffer := emptyQueue, txpie := false, rxpie := true, spe := true, udrdr := 63 }

/-- Run the echo handler over a list of invocation inputs, concatenating
the write traces. -/
def echoRun : List EchoInput → EchoState → EchoState × List EEv
  | [], s => (s, [])
  | i :: is, s =>
    ((echoRun is (echoHandler i s).1).1,
     (echoHandler i s).2 ++ (echoRun is (echoHandler i s).1).2)

/-- The data units a trace writes to `TXDR8`, in order. -/
def txWrites : List EEv → List Nat
  | [] => []
  | EEv.txdr v :: es => v :: txWrites es
  | EEv.txpie _ :: es => txWrites es
  | EEv.udrc :: es => txWrites es

/-- The units received (and read as `u16`) during a list of invocations, in
order. -/
def receivedUnits : List EchoInput → List Nat
  | [] => []
  | i :: is => (if i.rxp then [i.rxdr % 65536] else []) ++ receivedUnits is

/-- Units the echo firmware hands to the transmit FIFO over a whole
execution, in order: bring-up preloads b'!' = 33 (main.rs line 102) before
any interrupt is unmasked, then each handler invocation appends its `TXDR8`
writes.  The slave peripheral clocks these FIFO entries out in order. -/
def echoTransmitted (inputs : List EchoInput) : List Nat :=
  33 :: txWrites (echoRun inputs echoInit).2

/-- Modelled from the spec: on an underrun transfer the slave hardware
substitutes the configured placeholder held in `SPI_UDRDR` for that one
transfer; the register interface performing the substitution is outside
the repository's source, so the substituted unit is modelled as the
current `udrdr` state. -/
def underrunTransmitted (s : EchoState) : Nat := s.udrdr

/-- Global-initialisation actions of the two bring-up routines, in program
order, restricted to the interrupt-relevant tail of `main`. -/
inductive BootEv where
  | set_global_tx_buffer
  | set_global_rx_buffer
  | set_global_buffer
  | nvic_unmask_spi1
  | nvic_unmask_usart2
  | set_global_spi1
  | set_global_usart2
deriving DecidableEq

/-- Controller `main`, lines 177-185: the queue globals are stored, the two
NVIC lines are unmasked, and only then are the peripheral handle globals
stored. -/
def controllerBoot : List BootEv :=
  [BootEv.set_global_tx_buffer, BootEv.set_global_rx_buffer,
   BootEv.nvic_unmask_spi1, BootEv.nvic_unmask_usart2,
   BootEv.set_global_spi1, BootEv.set_global_usart2]

/-- Echo `main`, lines 104-109: the queue global is stored, the NVIC line
is unmasked, and only then is the peripheral handle global stored. -/
def echoBoot : List BootEv :=
  [BootEv.set_global_buffer, BootEv.nvic_unmask_spi1, BootEv.set_global_spi1]

/-- Flow-control invariant of the controller: each transmit-interrupt-enable
bit is set exactly when the queue feeding that transmit path is non-empty
(`SPI1_CR2.TXEIE` for `TX_BUFFER`, `USART2_CR1.TXEIE` for `RX_BUFFER`),
with both queues' indices in range. -/
def ControllerState.inv (s : ControllerState) : Prop :=
  s.tx_buffer.wf ∧ s.rx_buffer.wf ∧
  s.spi1_txeie = !s.tx_buffer.is_empty ∧
  s.usart2_txeie = !s.rx_buffer.is_empty

/-- Flow-control invariant of the echo firmware: `TXPIE` is set exactly
when the queue is non-empty, with indices in range. -/
def EchoState.inv (s : EchoState) : Prop :=
  s.buffer.wf ∧ s.txpie = !s.buffer.is_empty

theorem usart2TxStep_inv (b : Bool) (s : ControllerState) (h : s.inv) :
    (usart2TxStep b s).1.inv := by
  obtain ⟨htw, hrw, hts, hus⟩ := h
  unfold usart2TxStep
  by_cases hb : b = true
  · rw [if_pos hb]
    by_cases hemp : s.rx_buffer.head = s.rx_buffer.tail
    · obtain ⟨h1, h2⟩ := Queue.dequeue_empty_fields hemp
      simp only [h2, h1]
      exact ⟨htw, hrw, hts, by simp [(Queue.is_empty_true_iff hrw).2 hemp]⟩
    · obtain ⟨hv, _, hwf1⟩ := Queue.dequeue_ok hrw hemp
      simp only [hv]
      by_cases he : s.rx_buffer.dequeue.1.is_empty = true
      · rw [if_pos he]
        exact ⟨htw, hwf1, hts, by simp [he]⟩
      · rw [if_neg he]
        have he' : s.rx_buffer.dequeue.1.is_empty = false := by
          cases hx : s.rx_buffer.dequeue.1.is_empty
          · rfl
          · exact absurd hx he
        exact ⟨htw, hwf1, hts,
          by simp only [hus, (Queue.is_empty_false_iff hrw).2 hemp, he']⟩
  · rw [if_neg hb]
    exact ⟨htw, hrw, hts, hus⟩

theorem usart2RxStep_inv (b : Bool) (rdr : Nat) (s : ControllerState) (h : s.inv) :
    (usart2RxStep b rdr s).1.inv := by
  obtain ⟨htw, hrw, hts, hus⟩ := h
  unfold usart2RxStep
  by_cases hb : b = true
  · rw [if_pos hb]
    by_cases hfull : Queue.increment s.tx_buffer.tail = s.tx_buffer.head
    · obtain ⟨h1, h2⟩ := Queue.enqueue_fail_fields (v := rdr) hfull
      rw [h2, if_neg Bool.false_ne_true, h1]
      exact ⟨htw, hrw, hts, hus⟩
    · obtain ⟨hok, _, hwf1, hne⟩ := Queue.enqueue_ok (v := rdr) htw hfull
      rw [hok, if_pos rfl]
      exact ⟨hwf1, hrw, by simp [hne], hus⟩
  · rw [if_neg hb]
    exact ⟨htw, hrw, hts, hus⟩

theorem usart2OreStep_fst (b : Bool) (s : ControllerState) :
    (usart2OreStep b s).1 = s := by
  unfold usart2OreStep
  split <;> rfl

theorem usart2Handler_inv (i : Usart2Input) (s : ControllerState) (h : s.inv) :
    (usart2Handler i s).1.inv := by
  unfold usart2Handler
  rw [usart2OreStep_fst]
  exact usart2RxStep_inv _ _ _ (usart2TxStep_inv _ _ h)

theorem spi1TxStep_inv (b : Bool) (s : ControllerState) (h : s.inv) :
    (spi1TxStep b s).1.inv := by
  obtain ⟨htw, hrw, hts, hus⟩ := h
  unfold spi1TxStep
  by_cases hb : b = true
  · rw [if_pos hb]
    by_cases hemp : s.tx_buffer.head = s.tx_buffer.tail
    · obtain ⟨h1, h2⟩ := Queue.dequeue_empty_fields hemp
      simp only [h2, h1]
      exact ⟨htw, hrw, by simp [(Queue.is_empty_true_iff htw).2 hemp], hus⟩
    · obtain ⟨hv, _, hwf1⟩ := Queue.dequeue_ok htw hemp
      simp only [hv]
      by_cases he : s.tx_buffer.dequeue.1.is_empty = true
      · rw [if_pos he]
        exact ⟨hwf1, hrw, by simp [he], hus⟩
      · rw [if_neg he]
        have he' : s.tx_buffer.dequeue.1.is_empty = false := by
          cases hx : s.tx_buffer.dequeue.1.is_empty
          · rfl
          · exact absurd hx he
        exact ⟨hwf1, hrw,
          by simp only [hts, (Queue.is_empty_false_iff htw).2 hemp, he'], hus⟩
  · rw [if_neg hb]
    exact ⟨htw, hrw, hts, hus⟩

theorem spi1RxStep_inv (b : Bool) (dr : Nat) (s : ControllerState) (h : s.inv) :
    (spi1RxStep b dr s).1.inv := by
  obtain ⟨htw, hrw, hts, hus⟩ := h
  unfold spi1RxStep
  by_cases hb : b = true
  · rw [if_pos hb]
    by_cases hfull : Queue.increment s.rx_buffer.tail = s.rx_buffer.head
    · obtain ⟨h1, h2⟩ := Queue.enqueue_fail_fields (v := dr) hfull
      rw [h2, if_neg Bool.false_ne_true, h1]
      exact ⟨htw, hrw, hts, hus⟩
    · obtain ⟨hok, _, hwf1, hne⟩ := Queue.enqueue_ok (v := dr) hrw hfull
      rw [hok, if_pos rfl]
      exact ⟨htw, hwf1, hts, by simp [hne]⟩
  · rw [if_neg hb]
    exact ⟨htw, hrw, hts, hus⟩

theorem spi1Handler_inv (i : Spi1Input) (s : ControllerState) (h : s.inv) :
    (spi1Handler i s).1.inv := by
  unfold spi1Handler
  exact spi1RxStep_inv _ _ _ (spi1TxStep_inv _ _ h)

theorem echoRxStep_inv (b : Bool) (rxdr : Nat) (s : EchoState) (h : s.inv) :
    (echoRxStep b rxdr s).1.inv := by
  obtain ⟨hw, ht⟩ := h
  unfold echoRxStep
  by_cases hb : b = true
  · rw [if_pos hb]
    by_cases hfull : Queue.increment s.buffer.tail = s.buffer.head
    · obtain ⟨h1, h2⟩ := Queue.enqueue_fail_fields (v := rxdr % 65536) hfull
      rw [h2, if_neg Bool.false_ne_true, h1]
      exact ⟨hw, ht⟩
    · obtain ⟨hok, _, hwf1, hne⟩ := Queue.enqueue_ok (v := rxdr % 65536) hw hfull
      rw [hok, if_pos rfl]
      exact ⟨hwf1, by simp [hne]⟩
  · rw [if_neg hb]
    exact ⟨hw, ht⟩

theorem echoTxStep_inv (b : Bool) (s : EchoState) (h : s.inv) :
    (echoTxStep b s).1.inv := by
  obtain ⟨hw, ht⟩ := h
  unfold echoTxStep
  by_cases hb : b = true
  · rw [if_pos hb]
    by_cases hemp : s.buffer.head = s.buffer.tail
    · obtain ⟨h1, h2⟩ := Queue.dequeue_empty_fields hemp
      simp only [h2, h1]
      exact ⟨hw, by simp [(Queue.is_empty_true_iff hw).2 hemp]⟩
    · obtain ⟨hv, _, hwf1⟩ := Queue.dequeue_ok hw hemp
      simp only [hv]
      by_cases he : s.buffer.dequeue.1.is_empty = true
      · rw [if_pos he]
        exact ⟨hwf1, by simp [he]⟩
      · rw [if_neg he]
        have he' : s.buffer.dequeue.1.is_empty = false := by
          cases hx : s.buffer.dequeue.1.is_empty
          · rfl
          · exact absurd hx he
        exact ⟨hwf1,
          by simp only [ht, (Queue.is_empty_false_iff hw).2 hemp, he']⟩
  · rw [if_neg hb]
    exact ⟨hw, ht⟩

theorem echoUdrStep_fst (b : Bool) (s : EchoState) : (echoUdrStep b s).1 = s := by
  unfold echoUdrStep
  split <;> rfl

theorem echoHandler_inv (i : EchoInput) (s : EchoState) (h : s.inv) :
    (echoHandler i s).1.inv := by
  unfold echoHandler
  rw [echoUdrStep_fst]
  exact echoTxStep_inv _ _ (echoRxStep_inv _ _ _ h)

/-- Claim C1: in both firmwares, each transmit-interrupt-enable bit is set
if and only if the queue feeding that peripheral's transmit path is
non-empty, at every handler exit: the invariant holds at bring-up (queues
empty, bits clear) and is preserved by every invocation of each of the
three handlers, because a successful enqueue sets the consumer's bit, a
dequeue that empties the queue clears it, and a dequeue attempted on an
empty queue clears it. -/
theorem flow_control_invariant :
    ControllerState.inv controllerInit ∧
    EchoState.inv echoInit ∧
    (∀ (i : Usart2Input) (s : ControllerState), s.inv → (usart2Handler i s).1.inv) ∧
    (∀ (j : Spi1Input) (s : ControllerState), s.inv → (spi1Handler j s).1.inv) ∧
    (∀ (k : EchoInput) (t : EchoState), t.inv → (echoHandler k t).1.inv) :=
  ⟨⟨Queue.wf_emptyQueue, Queue.wf_emptyQueue, rfl, rfl⟩,
   ⟨Queue.wf_emptyQueue, rfl⟩,
   usart2Handler_inv, spi1Handler_inv, echoHandler_inv⟩

/-- Witness for C1: the invariant propagated through a concrete `USART2`
handler invocation (receive of unit 7 on an empty system) starting from the
bring-up state. -/
theorem flow_control_invariant_witness :
    ControllerState.inv
      (usart2Handler { txe := true, rxne := true, ore := false, rdr := 7 } controllerInit).1 :=
  flow_control_invariant.2.2.1 { txe := true, rxne := true, ore := false, rdr := 7 }
    controllerInit flow_control_invariant.1

theorem usart2TxStep_tx (b : Bool) (s : ControllerState) :
    (usart2TxStep b s).1.tx_buffer = s.tx_buffer := by
  unfold usart2TxStep
  split
  · split
    · split <;> rfl
    · rfl
  · rfl

theorem usart2TxStep_no_spe_true (b : Bool) (s : ControllerState) :
    Ev.spi1_spe true ∉ (usart2TxStep b s).2 := by
  unfold usart2TxStep
  split
  · split
    · split <;> simp
    · simp
  · simp

theorem usart2OreStep_no_spe_true (b : Bool) (s : ControllerState) :
    Ev.spi1_spe true ∉ (usart2OreStep b s).2 := by
  unfold usart2OreStep
  split <;> simp

theorem usart2RxStep_spe_true (b : Bool) (r : Nat) (s : ControllerState) :
    Ev.spi1_spe true ∈ (usart2RxStep b r s).2 →
      b = true ∧ (s.tx_buffer.enqueue r).2 = true := by
  unfold usart2RxStep
  split
  · next hb =>
    split
    · next hok => exact fun _ => ⟨hb, hok⟩
    · simp
  · simp

theorem spi1TxStep_no_spe_true (b : Bool) (s : ControllerState) :
    Ev.spi1_spe true ∉ (spi1TxStep b s).2 := by
  unfold spi1TxStep
  split
  · split
    · split <;> simp
    · simp
  · simp

theorem spi1RxStep_no_spe_true (b : Bool) (d : Nat) (s : ControllerState) :
    Ev.spi1_spe true ∉ (spi1RxStep b d s).2 := by
  unfold spi1RxStep
  split
  · split <;> simp
  · simp

/-- Claim C5: in the controller's `SPI1` handler a successful dequeue is
followed by exactly the sequence: write the unit to `DR`, spin-wait until
`BSY` clears, then disable the peripheral (`SPE := 0`); the `SPI1` handler
never enables the peripheral, and the only place `SPE` is set is the
`USART2` handler's receive path upon a successful enqueue of new inbound
data. -/
theorem spi1_master_window (i : Spi1Input) (j : Usart2Input) (s t : ControllerState) :
    (∀ v, i.txe = true → s.tx_buffer.dequeue.2 = some v →
      ∃ rest, (spi1Handler i s).2 =
        Ev.spi1_dr v :: Ev.spi1_wait_bsy :: Ev.spi1_spe false :: rest) ∧
    Ev.spi1_spe true ∉ (spi1Handler i s).2 ∧
    (Ev.spi1_spe true ∈ (usart2Handler j t).2 →
      j.rxne = true ∧ (t.tx_buffer.enqueue j.rdr).2 = true) := by
  refine ⟨?_, ?_, ?_⟩
  · intro v htxe hv
    unfold spi1Handler spi1TxStep
    rw [if_pos htxe]
    simp only [hv]
    by_cases he : s.tx_buffer.dequeue.1.is_empty = true
    · rw [if_pos he]
      exact ⟨_, rfl⟩
    · rw [if_neg he]
      exact ⟨_, rfl⟩
  · unfold spi1Handler
    rw [List.mem_append]
    rintro (h | h)
    · exact spi1TxStep_no_spe_true _ _ h
    · exact spi1RxStep_no_spe_true _ _ _ h
  · intro hmem
    unfold usart2Handler at hmem
    rw [List.mem_append, List.mem_append] at hmem
    rcases hmem with (h | h) | h
    · exact absurd h (usart2TxStep_no_spe_true _ _)
    · obtain ⟨hb, hok⟩ := usart2RxStep_spe_true _ _ _ h
      rw [usart2TxStep_tx] at hok
      exact ⟨hb, hok⟩
    · exact absurd h (usart2OreStep_no_spe_true _ _)

/-- A controller state with exactly one unit (the value 5) queued for SPI
transmission. -/
def oneItemState : ControllerState :=
  { tx_buffer := (emptyQueue.enqueue 5).1, rx_buffer := emptyQueue,
    usart2_txeie := false, spi1_txeie := true, spi1_spe := true }

/-- Witness for C5: a concrete `SPI1` handler invocation with `TXE` set and
one queued unit produces the write/wait/disable prefix. -/
theorem spi1_master_window_witness :
    ∃ rest, (spi1Handler { txe := true, rxne := false, dr := 0 } oneItemState).2 =
      Ev.spi1_dr 5 :: Ev.spi1_wait_bsy :: Ev.spi1_spe false :: rest :=
  (spi1_master_window { txe := true, rxne := false, dr := 0 }
    { txe := false, rxne := false, ore := false, rdr := 0 }
    oneItemState controllerInit).1 5 rfl (by decide)

/-- Claim C6: when every hardware flag a handler checks reads false, the
handler returns the state unchanged and performs no register write, in all
three handlers of both firmwares, and therefore any number of repeated
invocations leaves the state unchanged. -/
theorem handlers_idle_noop (i : Usart2Input) (j : Spi1Input) (k : EchoInput)
    (s : ControllerState) (t : EchoState) :
    (i.txe = false → i.rxne = false → i.ore = false →
      usart2Handler i s = (s, []) ∧
      ∀ n : Nat, (fun st => (usart2Handler i st).1)^[n] s = s) ∧
    (j.txe = false → j.rxne = false →
      spi1Handler j s = (s, []) ∧
      ∀ n : Nat, (fun st => (spi1Handler j st).1)^[n] s = s) ∧
    (k.rxp = false → k.txp = false → k.udr = false →
      echoHandler k t = (t, []) ∧
      ∀ n : Nat, (fun st => (echoHandler k st).1)^[n] t = t) := by
  refine ⟨?_, ?_, ?_⟩
  · intro h1 h2 h3
    have hid : ∀ u : ControllerState, usart2Handler i u = (u, []) := by
      intro u
      simp [usart2Handler, usart2TxStep, usart2RxStep, usart2OreStep, h1, h2, h3]
    refine ⟨hid s, fun n => Function.iterate_fixed ?_ n⟩
    show (usart2Handler i s).1 = s
    rw [hid s]
  · intro h1 h2
    have hid : ∀ u : ControllerState, spi1Handler j u = (u, []) := by
      intro u
      simp [spi1Handler, spi1TxStep, spi1RxStep, h1, h2]
    refine ⟨hid s, fun n => Function.iterate_fixed ?_ n⟩
    show (spi1Handler j s).1 = s
    rw [hid s]
  · intro h1 h2 h3
    have hid : ∀ u : EchoState, echoHandler k u = (u, []) := by
      intro u
      simp [echoHandler, echoRxStep, echoTxStep, echoUdrStep, h1, h2, h3]
    refine ⟨hid t, fun n => Function.iterate_fixed ?_ n⟩
    show (echoHandler k t).1 = t
    rw [hid t]

/-- Witness for C6: a concrete all-flags-false invocation of each handler
from the bring-up states is a no-op with an empty write trace. -/
theorem handlers_idle_noop_witness :
    usart2Handler { txe := false, rxne := false, ore := false, rdr := 0 } controllerInit =
      (controllerInit, []) ∧
    spi1Handler { txe := false, rxne := false, dr := 0 } controllerInit =
      (controllerInit, []) ∧
    echoHandler { rxp := false, txp := false, udr := false, rxdr := 0 } echoInit =
      (echoInit, []) := by
  obtain ⟨hu, hs, he⟩ := handlers_idle_noop
    { txe := false, rxne := false, ore := false, rdr := 0 }
    { txe := false, rxne := false, dr := 0 }
    { rxp := false, txp := false, udr := false, rxdr := 0 }
    controllerInit echoInit
  exact ⟨(hu rfl rfl rfl).1, (hs rfl rfl).1, (he rfl rfl rfl).1⟩

/-- Claim C7: whenever the `USART2` overrun flag is asserted, the handler
acknowledges it by writing `ICR.ORECF`; the overrun path itself performs no
other action, so if no other flag is asserted the state (queues and
interrupt-enable bits) is unchanged and the write trace is exactly the
acknowledgement. -/
theorem usart2_overrun_acknowledge (i : Usart2Input) (s : ControllerState)
    (hore : i.ore = true) :
    Ev.usart2_orecf ∈ (usart2Handler i s).2 ∧
    (i.txe = false → i.rxne = false → usart2Handler i s = (s, [Ev.usart2_orecf])) := by
  constructor
  · simp [usart2Handler, usart2OreStep, hore]
  · intro h1 h2
    simp [usart2Handler, usart2TxStep, usart2RxStep, usart2OreStep, h1, h2, hore]

/-- Witness for C7: the concrete overrun-only invocation from the bring-up
state writes exactly the acknowledgement and changes nothing. -/
theorem usart2_overrun_acknowledge_witness :
    usart2Handler { txe := false, rxne := false, ore := true, rdr := 0 } controllerInit =
      (controllerInit, [Ev.usart2_orecf]) :=
  (usart2_overrun_acknowledge { txe := false, rxne := false, ore := true, rdr := 0 }
    controllerInit rfl).2 rfl rfl

/-- Claim C9 evaluation: in both bring-up routines the NVIC unmask of the
`SPI1` (and, for the controller, `USART2`) interrupt line strictly precedes
the store of the corresponding peripheral handle global, contradicting the
claim that the handles are stored first; a handler invocation inside that
window would unwrap `None` and panic, as the source's own SAFETY comment
concedes. -/
theorem boot_unmask_before_globals :
    controllerBoot.indexOf BootEv.nvic_unmask_spi1 <
      controllerBoot.indexOf BootEv.set_global_spi1 ∧
    controllerBoot.indexOf BootEv.nvic_unmask_usart2 <
      controllerBoot.indexOf BootEv.set_global_usart2 ∧
    echoBoot.indexOf BootEv.nvic_unmask_spi1 <
      echoBoot.indexOf BootEv.set_global_spi1 := by
  decide

theorem echoRxStep_udrdr (b : Bool) (r : Nat) (s : EchoState) :
    (echoRxStep b r s).1.udrdr = s.udrdr := by
  unfold echoRxStep
  split
  · split <;> rfl
  · rfl

theorem echoTxStep_udrdr (b : Bool) (s : EchoState) :
    (echoTxStep b s).1.udrdr = s.udrdr := by
  unfold echoTxStep
  split
  · split
    · split <;> rfl
    · rfl
  · rfl

theorem echoHandler_udrdr (i : EchoInput) (s : EchoState) :
    (echoHandler i s).1.udrdr = s.udrdr := by
  unfold echoHandler
  rw [echoUdrStep_fst, echoTxStep_udrdr, echoRxStep_udrdr]

/-- Claim C8: when the echo firmware's underrun flag is asserted the handler
clears it by writing `IFCR.UDRC`; if no other flag is asserted nothing else
changes and the trace is exactly the acknowledgement; the handler never
touches `SPI_UDRDR`, which bring-up set to the placeholder b'?' = 63, so
the unit the hardware substitutes for the underrun transfer is the
placeholder 63 and not the concurrently received unit 0x99 = 153. -/
theorem echo_underrun_clear_placeholder (k : EchoInput) (t : EchoState)
    (hudr : k.udr = true) :
    EEv.udrc ∈ (echoHandler k t).2 ∧
    (echoHandler k t).1.udrdr = t.udrdr ∧
    (k.rxp = false → k.txp = false → echoHandler k t = (t, [EEv.udrc])) ∧
    underrunTransmitted echoInit = 63 ∧ underrunTransmitted echoInit ≠ 153 := by
  refine ⟨?_, echoHandler_udrdr k t, ?_, rfl, by decide⟩
  · simp [echoHandler, echoUdrStep, hudr]
  · intro h1 h2
    simp [echoHandler, echoRxStep, echoTxStep, echoUdrStep, h1, h2, hudr]

/-- Witness for C8: the concrete underrun-only invocation (unit 0x99
arriving only as the concurrent transfer, no software flag) from the
bring-up state clears the flag, changes nothing else, and the substituted
unit is the placeholder. -/
theorem echo_underrun_clear_placeholder_witness :
    echoHandler { rxp := false, txp := false, udr := true, rxdr := 153 } echoInit =
      (echoInit, [EEv.udrc]) ∧
    underrunTransmitted echoInit = 63 := by
  obtain ⟨_, _, hid, hval, _⟩ := echo_underrun_clear_placeholder
    { rxp := false, txp := false, udr := true, rxdr := 153 } echoInit rfl
  exact ⟨hid rfl rfl, hval⟩

theorem txWrites_append (a b : List EEv) :
    txWrites (a ++ b) = txWrites a ++ txWrites b := by
  induction a with
  | nil => rfl
  | cons e es ih => cases e <;> simp [txWrites, ih]

theorem echoUdrStep_txWrites (b : Bool) (s : EchoState) :
    txWrites (echoUdrStep b s).2 = [] := by
  unfold echoUdrStep
  split <;> rfl
/-- The units the receive path of one echo handler invocation accepts: the
`RXP`-gated read, kept only when the enqueue returned `Ok` (mirrors the
success branch of `echoRxStep`, main.rs lines 19-25). -/
def echoAcceptedStep (i : EchoInput) (s : EchoState) : List Nat :=
  if i.rxp && (s.buffer.enqueue (i.rxdr % 65536)).2 then [i.rxdr % 65536] else []

/-- The units accepted (received and successfully enqueued) over a list of
handler invocations, in order; units dropped on a full queue do not
appear. -/
def echoAccepted : List EchoInput → EchoState → List Nat
  | [], _ => []
  | i :: is, s => echoAcceptedStep i s ++ echoAccepted is (echoHandler i s).1

theorem echoRxStep_toList (b : Bool) (r : Nat) (s : EchoState) (hwf : s.buffer.wf) :
    (echoRxStep b r s).1.buffer.wf ∧
    txWrites (echoRxStep b r s).2 = [] ∧
    (echoRxStep b r s).1.buffer.toList =
      s.buffer.toList ++
        (if b && (s.buffer.enqueue (r % 65536)).2 then [r % 65536] else []) := by
  unfold echoRxStep
  by_cases hb : b = true
  · rw [if_pos hb]
    by_cases hfull : Queue.increment s.buffer.tail = s.buffer.head
    · obtain ⟨h1, h2⟩ := Queue.enqueue_fail_fields (v := r % 65536) hfull
      rw [h2, if_neg Bool.false_ne_true, h1]
      refine ⟨hwf, rfl, ?_⟩
      simp [h2]
    · obtain ⟨hok, hlist, hwf1, _⟩ := Queue.enqueue_ok (v := r % 65536) hwf hfull
      rw [hok, if_pos rfl]
      refine ⟨hwf1, rfl, ?_⟩
      simp [hok, hb, hlist]
  · rw [if_neg hb]
    have hb' : b = false := by
      cases b
      · rfl
      · exact absurd rfl hb
    refine ⟨hwf, rfl, ?_⟩
    simp [hb']

theorem echoTxStep_writes (b : Bool) (s : EchoState) (hwf : s.buffer.wf) :
    (echoTxStep b s).1.buffer.wf ∧
    txWrites (echoTxStep b s).2 ++
        ((echoTxStep b s).1.buffer.toList).map (fun u => u % 256) =
      (s.buffer.toList).map (fun u => u % 256) := by
  unfold echoTxStep
  by_cases hb : b = true
  · rw [if_pos hb]
    by_cases hemp : s.buffer.head = s.buffer.tail
    · obtain ⟨h1, h2⟩ := Queue.dequeue_empty_fields hemp
      simp only [h2, h1]
      exact ⟨hwf, by simp [txWrites]⟩
    · obtain ⟨hv, hlist, hwf1⟩ := Queue.dequeue_ok hwf hemp
      simp only [hv]
      by_cases he : s.buffer.dequeue.1.is_empty = true
      · rw [if_pos he]
        exact ⟨hwf1, by simp [txWrites, hlist]⟩
      · rw [if_neg he]
        exact ⟨hwf1, by simp [txWrites, hlist]⟩
  · rw [if_neg hb]
    exact ⟨hwf, by simp [txWrites]⟩

/-- One handler invocation: the transmit-register writes followed by the
remaining content (as low 8 bits) equal the prior content followed by the
units this invocation accepted. -/
theorem echoHandler_writes (i : EchoInput) (s : EchoState) (hwf : s.buffer.wf) :
    (echoHandler i s).1.buffer.wf ∧
    txWrites (echoHandler i s).2 ++
        ((echoHandler i s).1.buffer.toList).map (fun u => u % 256) =
      (s.buffer.toList ++ echoAcceptedStep i s).map (fun u => u % 256) := by
  obtain ⟨hwf1, htw1, hlist1⟩ := echoRxStep_toList i.rxp i.rxdr s hwf
  obtain ⟨hwf2, heq2⟩ := echoTxStep_writes i.txp _ hwf1
  unfold echoHandler
  rw [echoUdrStep_fst]
  refine ⟨hwf2, ?_⟩
  rw [txWrites_append, txWrites_append, htw1, echoUdrStep_txWrites,
    List.nil_append, List.append_nil, heq2, hlist1]
  rfl

/-- Whole-run FIFO accounting: over any input list the transmit-register
write sequence followed by the remaining content (as low 8 bits) equals the
initial content followed by all accepted units (as low 8 bits). -/
theorem echoRun_writes (inputs : List EchoInput) :
    ∀ s : EchoState, s.buffer.wf →
      (echoRun inputs s).1.buffer.wf ∧
      txWrites (echoRun inputs s).2 ++
          ((echoRun inputs s).1.buffer.toList).map (fun u => u % 256) =
        (s.buffer.toList ++ echoAccepted inputs s).map (fun u => u % 256) := by
  induction inputs with
  | nil =>
    intro s hwf
    exact ⟨hwf, by simp [echoRun, txWrites, echoAccepted]⟩
  | cons i is ih =>
    intro s hwf
    obtain ⟨hwf1, heq1⟩ := echoHandler_writes i s hwf
    obtain ⟨hwf2, heq2⟩ := ih (echoHandler i s).1 hwf1
    refine ⟨hwf2, ?_⟩
    simp only [echoRun, echoAccepted]
    simp only [List.map_append] at heq1 heq2 ⊢
    rw [txWrites_append, List.append_assoc, heq2, ← List.append_assoc, heq1,
      List.append_assoc]

/-- Every accepted unit was received while `RXP` was asserted during the
same input list. -/
theorem echoAccepted_received (inputs : List EchoInput) :
    ∀ s : EchoState, ∀ u ∈ echoAccepted inputs s, u ∈ receivedUnits inputs := by
  induction inputs with
  | nil =>
    intro s u hu
    simp [echoAccepted] at hu
  | cons i is ih =>
    intro s u hu
    simp only [echoAccepted, List.mem_append] at hu
    simp only [receivedUnits, List.mem_append]
    rcases hu with hu | hu
    · unfold echoAcceptedStep at hu
      by_cases hc : (i.rxp && (s.buffer.enqueue (i.rxdr % 65536)).2) = true
      · rw [if_pos hc, List.mem_singleton] at hu
        have hrxp : i.rxp = true := by
          rw [Bool.and_eq_true] at hc
          exact hc.1
        refine Or.inl ?_
        rw [if_pos hrxp, List.mem_singleton]
        exact hu
      · rw [if_neg hc] at hu
        exact absurd hu (List.not_mem_nil u)
    · exact Or.inr (ih (echoHandler i s).1 u hu)

/-- Claim C10: in every execution of the echo firmware the first unit
handed to the transmit FIFO is the bring-up preload b'!' = 33, written
before the interrupt is unmasked and independent of any received data; and
for every prefix of the run the sequence of handler `TXDR8` writes so far
is a prefix of the low-8-bit images of the units accepted (successfully
enqueued) so far, so each transmitted unit is the low 8 bits of a unit
already enqueued by that point of the run - never a dropped unit, never a
later one - and every accepted unit is one that was received. -/
theorem echo_preload_then_echoes (inputs : List EchoInput) :
    (echoTransmitted inputs).head? = some 33 ∧
    (∀ pre post, inputs = pre ++ post →
      ∃ rest, txWrites (echoRun pre echoInit).2 ++ rest =
        (echoAccepted pre echoInit).map (fun u => u % 256)) ∧
    (∀ u ∈ echoAccepted inputs echoInit, u ∈ receivedUnits inputs) := by
  refine ⟨rfl, ?_, echoAccepted_received inputs echoInit⟩
  intro pre _ _
  obtain ⟨_, heq⟩ := echoRun_writes pre echoInit ⟨by decide, by decide⟩
  refine ⟨((echoRun pre echoInit).1.buffer.toList).map (fun u => u % 256), ?_⟩
  rw [heq]
  have hinit : echoInit.buffer.toList = [] := rfl
  rw [hinit, List.nil_append]

/-- Witness for C10: a single invocation that receives the unit 65,
accepts it and transmits it; the write trace is a prefix of the accepted
units' low 8 bits, and the accepted unit 65 is among the received ones. -/
theorem echo_preload_then_echoes_witness :
    (∃ rest,
      txWrites (echoRun [{ rxp := true, txp := true, udr := false, rxdr := 65 }] echoInit).2
          ++ rest =
        (echoAccepted [{ rxp := true, txp := true, udr := false, rxdr := 65 }] echoInit).map
          (fun u => u % 256)) ∧
    (65 : Nat) ∈ receivedUnits [{ rxp := true, txp := true, udr := false, rxdr := 65 }] :=
  ⟨(echo_preload_then_echoes [{ rxp := true, txp := true, udr := false, rxdr := 65 }]).2.1
      [{ rxp := true, txp := true, udr := false, rxdr := 65 }] [] rfl,
   (echo_preload_then_echoes [{ rxp := true, txp := true, udr := false, rxdr := 65 }]).2.2
      65 (by decide)⟩
